import Mathlib

/-!
Shallow embedding of the runtime core of a tick-based simulation engine:
the entity registry with population caps and deferred removal
(engine/EntityManager.js), the uniform-grid spatial index
(engine/SpatialGrid.js), the fixed-timestep loop (engine/Core.js), the
pollution accumulation step (engine/Systems/PollutionSystem.js) and the
publish/subscribe bus (engine/EventBus.js), together with theorems that
check the documented contracts of these components.

Modelling conventions:
- JavaScript numbers are embedded as rationals; integer ids as naturals.
- JavaScript object identity (the semantics of indexOf, includes and
  splice on entity objects) is embedded as structural equality of the
  Lean values; the eid field plays the role of the object reference, so
  two value-equal objects with different eid model two distinct objects.
- The string bucket keys of the grid are embedded as pairs of integers
  (the string encoding of an integer pair is injective).
- DOM side effects (destroy hooks, element updates) and bus emissions
  carry no registry state and are dropped from the state transition.
-/

/-- Immutable species descriptor: shared record carrying an id, the
population cap MAX_COUNT and an optional pollution rate
(game/SpeciesRegistry.js shape, restricted to the fields the engine
core reads). -/
structure SpeciesDef where
  id : Nat
  MAX_COUNT : Nat
  pollutionRate : Option Rat
deriving DecidableEq

/-- An entity as seen by the engine core: object identity eid, a 2-D
position, an optional reference to its species descriptor (islands,
eggs and elixirs have none) and a remaining lifetime (read by the
pollution step). -/
structure Entity where
  eid : Nat
  x : Rat
  y : Rat
  speciesDef : Option SpeciesDef
  lifetime : Rat
deriving DecidableEq

/-- The named entity pools of EntityManager. -/
inductive PoolKey where
  | ducks | fish | food | eggs | algae | seagrass | kelp
  | octopi | elixirs | islands | seaCreatures | predators
deriving DecidableEq, Fintype

/-- The named spatial grids of EntityManager. -/
inductive GridKey where
  | ducks | fish | food | creatures
deriving DecidableEq, Fintype

/-- GRID_MAP of EntityManager.js: which pools feed which spatial grid. -/
def GRID_MAP : PoolKey → Option GridKey
  | .ducks => some .ducks
  | .fish => some .fish
  | .food => some .food
  | .seaCreatures => some .creatures
  | _ => none

namespace SpatialGrid

/-- A spatial grid: bucket contents per integer cell key. A key absent
from the JavaScript Map corresponds to the empty list. -/
def Grid : Type := Int × Int → List Entity

/-- The `_key` computation: floor-divide both coordinates by the cell
size. -/
def cellKey (cs : Rat) (x y : Rat) : Int × Int :=
  (⌊x / cs⌋, ⌊y / cs⌋)

/-- SpatialGrid.add: push the object onto the bucket of its current
position. -/
def add (cs : Rat) (obj : Entity) (g : Grid) : Grid :=
  fun k => if k = cellKey cs obj.x obj.y then g k ++ [obj] else g k

/-- SpatialGrid.remove: in the bucket of the current position of the
object, splice out the first entry identical to it (no-op when the
bucket is missing or the object is not in it). -/
def remove (cs : Rat) (obj : Entity) (g : Grid) : Grid :=
  fun k => if k = cellKey cs obj.x obj.y then (g k).erase obj else g k

/-- SpatialGrid.update: recompute old and new keys; if equal do nothing,
else splice the object out of the old bucket and push it onto the new
one. -/
def update (cs : Rat) (obj : Entity) (oldX oldY : Rat) (g : Grid) : Grid :=
  let oldKey := cellKey cs oldX oldY
  let newKey := cellKey cs obj.x obj.y
  if oldKey = newKey then g
  else fun k =>
    if k = newKey then g k ++ [obj]
    else if k = oldKey then (g k).erase obj
    else g k

/-- The integers from lo to hi inclusive, in order (the ring traversal
of getNearby). -/
def intRange (lo hi : Int) : List Int :=
  (List.range (hi + 1 - lo).toNat).map (fun (i : Nat) => lo + (i : Int))

/-- SpatialGrid.getNearby: concatenate the buckets of every cell within
ceil(radius / cellSize) rings of the query cell. -/
def getNearby (cs : Rat) (g : Grid) (x y radius : Rat) : List Entity :=
  let cr : Int := ⌈radius / cs⌉
  let cx : Int := ⌊x / cs⌋
  let cy : Int := ⌊y / cs⌋
  (intRange (-cr) cr).flatMap fun dx =>
    (intRange (-cr) cr).flatMap fun dy =>
      g (cx + dx, cy + dy)

end SpatialGrid

/-- The mutable state of EntityManager: the entity pools, the spatial
grids (all created with the same configured cell size), the deferred
removal queue and the environment scalars owned by the manager. -/
structure EMState where
  cellSize : Rat
  pools : PoolKey → List Entity
  grids : GridKey → SpatialGrid.Grid
  removeQueue : List Entity
  waterPollution : Rat
  biodiversity : Rat

/-- The state built by the EntityManager constructor: empty pools and
grids, empty removal queue, pollution 0, biodiversity 100. -/
def emptyEMState (cs : Rat) : EMState where
  cellSize := cs
  pools := fun _ => []
  grids := fun _ => fun _ => []
  removeQueue := []
  waterPollution := 0
  biodiversity := 100

namespace EntityManager

open PoolKey

/-- The pools of allArrays, in source order (islands is not among
them). -/
def allArraysKeys : List PoolKey :=
  [ducks, fish, food, eggs, algae, seagrass, kelp,
   octopi, elixirs, seaCreatures, predators]

/-- The pool list of the remove method, in source order (all twelve
pools, islands included). -/
def removeOrderKeys : List PoolKey :=
  [ducks, fish, food, eggs, algae, seagrass, kelp,
   octopi, elixirs, islands, seaCreatures, predators]

/-- The test e.speciesDef?.id === i of countSpecies: an entity with no
descriptor never matches. -/
def matchesId (i : Nat) (e : Entity) : Bool :=
  match e.speciesDef with
  | some sd => sd.id == i
  | none => false

/-- Occurrences, over the pools of allArrays, of entities whose
descriptor id equals i. -/
def countById (i : Nat) (st : EMState) : Nat :=
  (allArraysKeys.map (fun k => (st.pools k).countP (matchesId i))).sum

/-- EntityManager.countSpecies: scan allArrays counting entities whose
descriptor id matches the id of the given descriptor. -/
def countSpecies (d : SpeciesDef) (st : EMState) : Nat :=
  countById d.id st

/-- EntityManager.canSpawn: the count is strictly below MAX_COUNT. -/
def canSpawn (d : SpeciesDef) (st : EMState) : Bool :=
  countSpecies d st < d.MAX_COUNT

/-- EntityManager.add: append the entity to the named pool; when
useGrid is set and the pool feeds a grid, also add it to that grid.
The spawned and hud-refresh bus emissions carry no registry state. -/
def add (e : Entity) (pk : PoolKey) (useGrid : Bool) (st : EMState) : EMState :=
  let st1 := { st with pools := fun k => if k = pk then st.pools k ++ [e] else st.pools k }
  match useGrid, GRID_MAP pk with
  | true, some gk =>
      { st1 with grids := fun g => if g = gk then SpatialGrid.add st.cellSize e (st1.grids g) else st1.grids g }
  | _, _ => st1

/-- EntityManager.queueRemove: push the entity onto the removal queue
unless it is already queued. -/
def queueRemove (e : Entity) (st : EMState) : EMState :=
  if e ∈ st.removeQueue then st
  else { st with removeQueue := st.removeQueue ++ [e] }

/-- EntityManager.remove: walk the pools in source order; in the first
pool containing the entity, splice it out, remove it from the mapped
grid when the pool has one, and stop. When no pool contains it, do
nothing (the destroy hook and the removed emission are outside the
modelled state). -/
def remove (e : Entity) (st : EMState) : EMState :=
  match removeOrderKeys.find? (fun k => decide (e ∈ st.pools k)) with
  | none => st
  | some k0 =>
      let st1 := { st with pools := fun k => if k = k0 then (st.pools k).erase e else st.pools k }
      match GRID_MAP k0 with
      | some gk =>
          { st1 with grids := fun g => if g = gk then SpatialGrid.remove st.cellSize e (st1.grids g) else st1.grids g }
      | none => st1

/-- EntityManager.flushRemovals: remove every queued entity (the remove
method never touches the queue, so iterating the live queue equals a
fold over its initial contents), then clear the queue. -/
def flushRemovals (st : EMState) : EMState :=
  { st.removeQueue.foldl (fun s f => remove f s) st with removeQueue := [] }

end EntityManager

namespace Engine

/-- The dt computation of Engine._loop: given the frame-rate cap
targetFrameMs and the previous and current callback timestamps, either
skip the frame (elapsed below the minimum interval: no subsystem runs)
or run it with dt = elapsed / 1000 clamped to 0.1 seconds. The same dt
value is passed to every registered subsystem. -/
def loopDt (targetFrameMs lastTime currentTime : Rat) : Option Rat :=
  let elapsed := currentTime - lastTime
  if elapsed < targetFrameMs then none
  else some (min (elapsed / 1000) (1 / 10))

end Engine

namespace PollutionSystem

/-- The in-place mutation a.lifetime -= dt. -/
def decLifetime (dt : Rat) (e : Entity) : Entity :=
  { e with lifetime := e.lifetime - dt }

/-- The pollution contribution of one entity in the loop body: its
pollutionRate times dt when the rate is defined, else nothing. -/
def contribution (dt : Rat) (e : Entity) : Rat :=
  match e.speciesDef with
  | some sd =>
      match sd.pollutionRate with
      | some r => r * dt
      | none => 0
  | none => 0

/-- PollutionSystem.update (engine/Systems/PollutionSystem.js): when
not paused, decrement the lifetime of every algae, seagrass and kelp
entity in place, sum their pollution contributions, queue every entity
whose decremented lifetime is at or below zero, and set the pollution
scalar to the clamped sum. The pollution-changed emission carries no
registry state. -/
def update (isPaused : Bool) (dt : Rat) (st : EMState) : EMState :=
  if isPaused then st
  else
    let contributors :=
      ((st.pools .algae ++ st.pools .seagrass ++ st.pools .kelp).map (decLifetime dt))
    let delta :=
      ((st.pools .algae ++ st.pools .seagrass ++ st.pools .kelp).map (contribution dt)).sum
    let st1 := { st with
      pools := fun k =>
        if k = .algae ∨ k = .seagrass ∨ k = .kelp then (st.pools k).map (decLifetime dt)
        else st.pools k }
    let st2 := contributors.foldl
      (fun s a => if a.lifetime ≤ 0 then EntityManager.queueRemove a s else s) st1
    { st2 with waterPollution := max 0 (min 100 (st.waterPollution + delta)) }

end PollutionSystem

namespace EventBus

/-- A subscribed handler, identified by hid (object identity of the
callback). Its observable effect on the bus state when invoked is
captured by removeOnCall: when set, the handler calls off for the
callback with that identity on the same topic (the EventBus.off method:
splice out the first list entry identical to the callback). A handler
never subscribes new callbacks in this model, so the subscriber list
never grows during a dispatch. -/
structure Handler where
  hid : Nat
  removeOnCall : Option Nat
deriving DecidableEq

/-- The bus state for one topic: the live subscriber list of the
topic, plus the log of handler invocations (in invocation order). -/
structure BusState where
  subs : List Handler
  callLog : List Nat
deriving DecidableEq

/-- EventBus.off restricted to one topic: splice out the first handler
with the given identity, if any. -/
def off (k : Nat) (l : List Handler) : List Handler :=
  l.eraseP (fun h => h.hid == k)

/-- Invoke one handler: record the invocation, then apply its effect. -/
def invoke (h : Handler) (st : BusState) : BusState :=
  let st1 := { st with callLog := st.callLog ++ [h.hid] }
  match h.removeOnCall with
  | some k => { st1 with subs := off k st1.subs }
  | none => st1

/-- The for..of loop of EventBus.emit over the live array: at step i,
stop when i is at or past the current length of the live list, else
invoke the element now at index i and advance. The fuel argument only
bounds the recursion; since handlers never grow the list here, the
initial list length is enough fuel for the loop to reach its exit
condition. -/
def emitLoop : Nat → Nat → BusState → BusState
  | 0, _, st => st
  | fuel + 1, i, st =>
    if hl : i < st.subs.length then
      emitLoop fuel (i + 1) (invoke (st.subs.get ⟨i, hl⟩) st)
    else st

/-- EventBus.emit restricted to one topic. -/
def emit (st : BusState) : BusState :=
  emitLoop st.subs.length 0 st

end EventBus


/-! Helper lemmas about the EntityManager operations. -/

namespace EntityManager

theorem queueRemove_pools (e : Entity) (st : EMState) :
    (queueRemove e st).pools = st.pools := by
  simp only [queueRemove]
  split <;> rfl

theorem queueRemove_grids (e : Entity) (st : EMState) :
    (queueRemove e st).grids = st.grids := by
  simp only [queueRemove]
  split <;> rfl

theorem queueRemove_waterPollution (e : Entity) (st : EMState) :
    (queueRemove e st).waterPollution = st.waterPollution := by
  simp only [queueRemove]
  split <;> rfl

theorem queueRemove_cellSize (e : Entity) (st : EMState) :
    (queueRemove e st).cellSize = st.cellSize := by
  simp only [queueRemove]
  split <;> rfl

theorem mem_removeOrderKeys (k : PoolKey) : k ∈ removeOrderKeys := by
  cases k <;> simp [removeOrderKeys]

theorem remove_of_not_mem (e : Entity) (st : EMState)
    (habs : ∀ k, e ∉ st.pools k) : remove e st = st := by
  have hf : removeOrderKeys.find? (fun k => decide (e ∈ st.pools k)) = none := by
    rw [List.find?_eq_none]
    intro k _
    simp [habs k]
  simp [remove, hf]

theorem remove_pools_of_find (e : Entity) (st : EMState) (k0 : PoolKey)
    (hf : removeOrderKeys.find? (fun k => decide (e ∈ st.pools k)) = some k0) :
    (remove e st).pools = fun k => if k = k0 then (st.pools k).erase e else st.pools k := by
  rcases hg : GRID_MAP k0 with _ | gk <;> simp [remove, hf, hg]

theorem remove_grids_of_find (e : Entity) (st : EMState) (k0 : PoolKey)
    (hf : removeOrderKeys.find? (fun k => decide (e ∈ st.pools k)) = some k0) :
    (remove e st).grids =
      match GRID_MAP k0 with
      | some gk => fun g => if g = gk then SpatialGrid.remove st.cellSize e (st.grids g) else st.grids g
      | none => st.grids := by
  rcases hg : GRID_MAP k0 with _ | gk <;> simp [remove, hf, hg]

theorem remove_cellSize (e : Entity) (st : EMState) :
    (remove e st).cellSize = st.cellSize := by
  rcases hf : removeOrderKeys.find? (fun k => decide (e ∈ st.pools k)) with _ | k0
  · simp [remove, hf]
  · rcases hg : GRID_MAP k0 with _ | gk <;> simp [remove, hf, hg]

theorem remove_removeQueue (e : Entity) (st : EMState) :
    (remove e st).removeQueue = st.removeQueue := by
  rcases hf : removeOrderKeys.find? (fun k => decide (e ∈ st.pools k)) with _ | k0
  · simp [remove, hf]
  · rcases hg : GRID_MAP k0 with _ | gk <;> simp [remove, hf, hg]

theorem mem_pools_of_find (e : Entity) (st : EMState) (k0 : PoolKey)
    (hf : removeOrderKeys.find? (fun k => decide (e ∈ st.pools k)) = some k0) :
    e ∈ st.pools k0 := by
  have h := List.find?_some (p := fun k => decide (e ∈ st.pools k)) hf
  simpa using h

theorem not_mem_pools_of_find_none (e : Entity) (st : EMState)
    (hf : removeOrderKeys.find? (fun k => decide (e ∈ st.pools k)) = none) :
    ∀ k, e ∉ st.pools k := by
  intro k hk
  have := List.find?_eq_none.mp hf k (mem_removeOrderKeys k)
  simp [hk] at this

end EntityManager

/-! Claim C4: the scheduler dt is the elapsed time over 1000, clamped
to 0.1 seconds. -/

/-- C4: whenever an animation callback actually runs the subsystems
(the frame is not skipped by the FPS cap), the dt passed to every
subsystem equals the elapsed wall time divided by 1000 clamped to at
most 0.1 seconds, and in particular never exceeds 0.1. -/
theorem c4_dt_clamped (tfm lastTime currentTime dt : Rat)
    (h : Engine.loopDt tfm lastTime currentTime = some dt) :
    dt = min ((currentTime - lastTime) / 1000) (1 / 10) ∧ dt ≤ 1 / 10 := by
  unfold Engine.loopDt at h
  by_cases hc : currentTime - lastTime < tfm
  · simp [hc] at h
  · simp [hc] at h
    subst h
    constructor
    · norm_num
    · exact le_trans (min_le_right _ _) (by norm_num)

/-- Witness for c4_dt_clamped: a 1000 ms gap with a 17 ms frame cap
yields dt clamped to 0.1. -/
theorem c4_dt_clamped_witness :
    (1 : Rat) / 10 = min (((1000 : Rat) - 0) / 1000) (1 / 10) ∧ (1 : Rat) / 10 ≤ 1 / 10 :=
  c4_dt_clamped 17 0 1000 (1 / 10) (by norm_num [Engine.loopDt])

/-! Claim C10: bus dispatch iterates the live subscriber list, so a
handler that unsubscribes itself mid-emit shifts the list and the next
handler is skipped. -/

/-- C10: with handlers a then b subscribed to the topic, where a
unsubscribes itself when invoked, one emit invokes a only: b is not
invoked during that emit, because dispatch iterates the live list and
the splice inside off shifts b into the index the loop has already
passed. -/
theorem c10_live_list_dispatch (a b : Nat) (hne : a ≠ b) :
    (EventBus.emit ⟨[⟨a, some a⟩, ⟨b, none⟩], []⟩).callLog = [a] ∧
    b ∉ (EventBus.emit ⟨[⟨a, some a⟩, ⟨b, none⟩], []⟩).callLog := by
  have h : EventBus.emit ⟨[⟨a, some a⟩, ⟨b, none⟩], []⟩ = ⟨[⟨b, none⟩], [a]⟩ := by
    simp [EventBus.emit, EventBus.emitLoop, EventBus.invoke, EventBus.off, List.eraseP]
  rw [h]
  exact ⟨rfl, by simp [Ne.symm hne]⟩

/-- Witness for c10_live_list_dispatch at handler identities 0 and 1. -/
theorem c10_live_list_dispatch_witness :
    (EventBus.emit ⟨[⟨0, some 0⟩, ⟨1, none⟩], []⟩).callLog = [0] ∧
    1 ∉ (EventBus.emit ⟨[⟨0, some 0⟩, ⟨1, none⟩], []⟩).callLog :=
  c10_live_list_dispatch 0 1 (by decide)

/-! Claim C7: queueRemove is idempotent and keeps the queue free of
duplicates. -/

/-- C7: queuing the same entity twice yields the same queue as once,
and when an entity occurs at most once in the queue it still occurs at
most once after any further queueRemove call. -/
theorem c7_queueRemove_idempotent (st : EMState) (e f : Entity)
    (hc : st.removeQueue.count e ≤ 1) :
    EntityManager.queueRemove e (EntityManager.queueRemove e st) = EntityManager.queueRemove e st ∧
    (EntityManager.queueRemove f st).removeQueue.count e ≤ 1 := by
  constructor
  · by_cases he : e ∈ st.removeQueue
    · simp [EntityManager.queueRemove, he]
    · have h1 : EntityManager.queueRemove e st =
          { st with removeQueue := st.removeQueue ++ [e] } := by
        simp [EntityManager.queueRemove, he]
      rw [h1]
      simp [EntityManager.queueRemove]
  · by_cases hf : f ∈ st.removeQueue
    · simpa [EntityManager.queueRemove, hf] using hc
    · by_cases hef : e = f
      · subst hef
        have h0 : st.removeQueue.count e = 0 := List.count_eq_zero.mpr hf
        simp [EntityManager.queueRemove, hf, List.count_append, h0]
      · simp [EntityManager.queueRemove, hf, List.count_append]
        simpa [List.count_singleton, hef] using hc

/-- Witness for c7_queueRemove_idempotent on the initial empty state. -/
theorem c7_queueRemove_idempotent_witness :
    EntityManager.queueRemove ⟨0, 0, 0, none, 0⟩
        (EntityManager.queueRemove ⟨0, 0, 0, none, 0⟩ (emptyEMState 150)) =
      EntityManager.queueRemove ⟨0, 0, 0, none, 0⟩ (emptyEMState 150) ∧
    (EntityManager.queueRemove ⟨1, 2, 3, none, 0⟩ (emptyEMState 150)).removeQueue.count
        ⟨0, 0, 0, none, 0⟩ ≤ 1 :=
  c7_queueRemove_idempotent (emptyEMState 150) ⟨0, 0, 0, none, 0⟩ ⟨1, 2, 3, none, 0⟩
    (by simp [emptyEMState])

/-! Claim C6: removing an entity absent from all pools is a silent
no-op, and a flush directly after a flush is a no-op. -/

/-- C6: queuing or removing an entity absent from every pool raises no
error and leaves every pool, every spatial grid and the environment
scalar unchanged (remove leaves the whole state unchanged), and a
flushRemovals immediately following a flushRemovals is a no-op. -/
theorem c6_stale_removal_noop (st : EMState) (e : Entity)
    (habs : ∀ k, e ∉ st.pools k) :
    EntityManager.remove e st = st ∧
    (EntityManager.queueRemove e st).pools = st.pools ∧
    (EntityManager.queueRemove e st).grids = st.grids ∧
    (EntityManager.queueRemove e st).waterPollution = st.waterPollution ∧
    EntityManager.flushRemovals (EntityManager.flushRemovals st) =
      EntityManager.flushRemovals st :=
  ⟨EntityManager.remove_of_not_mem e st habs,
   EntityManager.queueRemove_pools e st,
   EntityManager.queueRemove_grids e st,
   EntityManager.queueRemove_waterPollution e st,
   rfl⟩

/-- Witness for c6_stale_removal_noop on the initial empty state. -/
theorem c6_stale_removal_noop_witness :
    EntityManager.remove ⟨0, 0, 0, none, 0⟩ (emptyEMState 150) = emptyEMState 150 ∧
    (EntityManager.queueRemove ⟨0, 0, 0, none, 0⟩ (emptyEMState 150)).pools =
      (emptyEMState 150).pools ∧
    (EntityManager.queueRemove ⟨0, 0, 0, none, 0⟩ (emptyEMState 150)).grids =
      (emptyEMState 150).grids ∧
    (EntityManager.queueRemove ⟨0, 0, 0, none, 0⟩ (emptyEMState 150)).waterPollution =
      (emptyEMState 150).waterPollution ∧
    EntityManager.flushRemovals (EntityManager.flushRemovals (emptyEMState 150)) =
      EntityManager.flushRemovals (emptyEMState 150) :=
  c6_stale_removal_noop (emptyEMState 150) ⟨0, 0, 0, none, 0⟩
    (by intro k; simp [emptyEMState])

/-! Claim C8: the no-duplicate bucket invariant and removal by
reference identity. The raw add pushes unconditionally, so the
invariant as stated over arbitrary operation sequences fails; it holds
once add is only applied to objects not already stored and update is
only applied with old coordinates covering every current occurrence. -/

/-- One operation on a spatial grid. -/
inductive GridOp where
  | addOp (e : Entity)
  | updateOp (e : Entity) (oldX oldY : Rat)
  | removeOp (e : Entity)

/-- Apply one grid operation. -/
def applyGridOp (cs : Rat) (g : SpatialGrid.Grid) : GridOp → SpatialGrid.Grid
  | .addOp e => SpatialGrid.add cs e g
  | .updateOp e ox oy => SpatialGrid.update cs e ox oy g
  | .removeOp e => SpatialGrid.remove cs e g

/-- The disciplined use of the grid by the engine: add only inserts
objects not already stored, and update is called with old coordinates
whose bucket covers every occurrence of the object. -/
def LegalGridOp (cs : Rat) (g : SpatialGrid.Grid) : GridOp → Prop
  | .addOp e => ∀ k, e ∉ g k
  | .updateOp e ox oy => ∀ k, e ∈ g k → k = SpatialGrid.cellKey cs ox oy
  | .removeOp _ => True

/-- C8 counterexample: over arbitrary operation sequences the claim
fails, since adding the same object twice stores two entries for it in
one bucket. -/
theorem c8_duplicate_add_counterexample :
    ((SpatialGrid.add 150 ⟨0, 0, 0, none, 0⟩
        (SpatialGrid.add 150 ⟨0, 0, 0, none, 0⟩ (fun _ => [])))
      (SpatialGrid.cellKey 150 (0 : Rat) (0 : Rat))).count ⟨0, 0, 0, none, 0⟩ = 2 := by
  simp [SpatialGrid.add]

/-- C8 amended: for operation sequences in which add only inserts
objects not already stored and update is called with old coordinates
covering the current occurrences of the object, every bucket keeps at
most one entry per object; and remove excises by object identity: it
never changes the number of entries of any other object, including one
that is value-equal but a different object. -/
theorem c8_bucket_nodup_and_identity_removal (cs : Rat) (g : SpatialGrid.Grid) (op : GridOp)
    (hwf : ∀ e k, ((g k).count e) ≤ 1) (hlegal : LegalGridOp cs g op) :
    (∀ e k, (((applyGridOp cs g op) k).count e) ≤ 1) ∧
    (∀ a b : Entity, a ≠ b → ∀ k, ((SpatialGrid.remove cs a g) k).count b = (g k).count b) := by
  constructor
  · cases op with
    | addOp e =>
      intro f k
      simp only [applyGridOp, SpatialGrid.add]
      by_cases hk : k = SpatialGrid.cellKey cs e.x e.y
      · simp only [hk, if_pos rfl, List.count_append]
        by_cases hfe : f = e
        · subst hfe
          have h0 : (g (SpatialGrid.cellKey cs f.x f.y)).count f = 0 :=
            List.count_eq_zero.mpr (hlegal _)
          simp [h0]
        · simpa [List.count_singleton, hfe] using hwf f _
      · simpa [if_neg hk] using hwf f k
    | updateOp e ox oy =>
      intro f k
      simp only [applyGridOp, SpatialGrid.update]
      by_cases hkey : SpatialGrid.cellKey cs ox oy = SpatialGrid.cellKey cs e.x e.y
      · simpa [hkey] using hwf f k
      · simp only [if_neg hkey]
        by_cases hknew : k = SpatialGrid.cellKey cs e.x e.y
        · simp only [if_pos hknew, List.count_append]
          by_cases hfe : f = e
          · subst hfe
            have hmem : f ∉ g k := by
              intro hm
              exact hkey ((hlegal k hm).symm.trans hknew)
            have h0 : (g k).count f = 0 := List.count_eq_zero.mpr hmem
            simp [h0]
          · simpa [List.count_singleton, hfe] using hwf f _
        · simp only [if_neg hknew]
          by_cases hkold : k = SpatialGrid.cellKey cs ox oy
          · simp only [if_pos hkold]
            exact le_trans (List.Sublist.count_le (List.erase_sublist _ _) f) (hwf f _)
          · simpa [if_neg hkold] using hwf f k
    | removeOp e =>
      intro f k
      simp only [applyGridOp, SpatialGrid.remove]
      by_cases hk : k = SpatialGrid.cellKey cs e.x e.y
      · simp only [if_pos hk]
        exact le_trans (List.Sublist.count_le (List.erase_sublist _ _) f) (hwf f _)
      · simpa [if_neg hk] using hwf f k
  · intro a b hab k
    simp only [SpatialGrid.remove]
    by_cases hk : k = SpatialGrid.cellKey cs a.x a.y
    · simp only [if_pos hk]
      exact List.count_erase_of_ne (Ne.symm hab) _
    · simp [if_neg hk]

/-- Witness for c8_bucket_nodup_and_identity_removal: a fresh add into
an empty grid, and a removal that does not touch a value-equal object
with a different identity. -/
theorem c8_bucket_nodup_and_identity_removal_witness :
    ((applyGridOp 150 (fun _ => []) (.addOp ⟨0, 0, 0, none, 0⟩))
        (SpatialGrid.cellKey 150 (0 : Rat) (0 : Rat))).count ⟨0, 0, 0, none, 0⟩ ≤ 1 ∧
    ((SpatialGrid.remove 150 ⟨0, 0, 0, none, 0⟩ (fun _ => []))
        (SpatialGrid.cellKey 150 (0 : Rat) (0 : Rat))).count ⟨1, 0, 0, none, 0⟩ =
      ((fun _ => ([] : List Entity)) (SpatialGrid.cellKey 150 (0 : Rat) (0 : Rat))).count
        ⟨1, 0, 0, none, 0⟩ := by
  have h := c8_bucket_nodup_and_identity_removal 150 (fun _ => []) (.addOp ⟨0, 0, 0, none, 0⟩)
    (fun e k => by simp) (fun k => by simp)
  exact ⟨h.1 ⟨0, 0, 0, none, 0⟩ _, h.2 ⟨0, 0, 0, none, 0⟩ ⟨1, 0, 0, none, 0⟩ (by decide) _⟩

/-! Claim C9: the pollution accumulation step. Helper lemmas about the
queueing fold first. -/

theorem mem_queue_queueRemove_self (e : Entity) (st : EMState) :
    e ∈ (EntityManager.queueRemove e st).removeQueue := by
  by_cases he : e ∈ st.removeQueue <;> simp [EntityManager.queueRemove, he]

theorem mem_queue_queueRemove_mono (x e : Entity) (st : EMState)
    (hx : x ∈ st.removeQueue) : x ∈ (EntityManager.queueRemove e st).removeQueue := by
  by_cases he : e ∈ st.removeQueue <;> simp [EntityManager.queueRemove, he, hx]

/-- The queueing fold of the pollution step never drops queue members. -/
theorem mem_queue_foldl_mono (l : List Entity) (st : EMState) (x : Entity)
    (hx : x ∈ st.removeQueue) :
    x ∈ (l.foldl (fun s a => if a.lifetime ≤ 0 then EntityManager.queueRemove a s else s)
        st).removeQueue := by
  induction l generalizing st with
  | nil => exact hx
  | cons b tl ih =>
    simp only [List.foldl_cons]
    by_cases hb : b.lifetime ≤ 0
    · exact ih _ (by simpa [hb] using mem_queue_queueRemove_mono x b st hx)
    · simpa [hb] using ih st hx

/-- Every expired entity of the traversed list ends up queued. -/
theorem mem_queue_foldl_of_expired (l : List Entity) (st : EMState) (a : Entity)
    (ha : a ∈ l) (hexp : a.lifetime ≤ 0) :
    a ∈ (l.foldl (fun s b => if b.lifetime ≤ 0 then EntityManager.queueRemove b s else s)
        st).removeQueue := by
  induction l generalizing st with
  | nil => cases ha
  | cons b tl ih =>
    simp only [List.foldl_cons]
    rcases List.mem_cons.mp ha with hab | hmem
    · subst hab
      simp only [if_pos hexp]
      exact mem_queue_foldl_mono tl _ a (mem_queue_queueRemove_self a st)
    · by_cases hb : b.lifetime ≤ 0
      · simpa [hb] using ih _ hmem
      · simpa [hb] using ih st hmem

/-- The queueing fold never changes the pools. -/
theorem pools_queue_foldl (l : List Entity) (st : EMState) :
    (l.foldl (fun s a => if a.lifetime ≤ 0 then EntityManager.queueRemove a s else s)
        st).pools = st.pools := by
  induction l generalizing st with
  | nil => rfl
  | cons b tl ih =>
    simp only [List.foldl_cons]
    by_cases hb : b.lifetime ≤ 0
    · simpa [hb, EntityManager.queueRemove_pools] using ih (EntityManager.queueRemove b st)
    · simpa [hb] using ih st

/-- C9: one pollution tick (not paused) leaves the pollution scalar
clamped to [0, 100] whatever the summed contributions are; every
contributor whose decremented lifetime is at or below zero is in the
removal queue afterwards; and the contributor pools are only mapped in
place (lifetimes decremented), never spliced, so no entity is removed
in place during the iteration. -/
theorem c9_pollution_clamped_and_expiry_queued (dt : Rat) (st : EMState) :
    (0 ≤ (PollutionSystem.update false dt st).waterPollution ∧
      (PollutionSystem.update false dt st).waterPollution ≤ 100) ∧
    (∀ a ∈ (PollutionSystem.update false dt st).pools .algae ++
            (PollutionSystem.update false dt st).pools .seagrass ++
            (PollutionSystem.update false dt st).pools .kelp,
        a.lifetime ≤ 0 → a ∈ (PollutionSystem.update false dt st).removeQueue) ∧
    ((PollutionSystem.update false dt st).pools .algae =
        (st.pools .algae).map (PollutionSystem.decLifetime dt) ∧
      (PollutionSystem.update false dt st).pools .seagrass =
        (st.pools .seagrass).map (PollutionSystem.decLifetime dt) ∧
      (PollutionSystem.update false dt st).pools .kelp =
        (st.pools .kelp).map (PollutionSystem.decLifetime dt)) ∧
    (∀ k, k ≠ PoolKey.algae → k ≠ PoolKey.seagrass → k ≠ PoolKey.kelp →
      (PollutionSystem.update false dt st).pools k = st.pools k) := by
  have hpools : (PollutionSystem.update false dt st).pools = fun k =>
      if k = PoolKey.algae ∨ k = PoolKey.seagrass ∨ k = PoolKey.kelp then
        (st.pools k).map (PollutionSystem.decLifetime dt)
      else st.pools k := by
    simp only [PollutionSystem.update, Bool.false_eq_true, if_false]
    rw [pools_queue_foldl]
  refine ⟨⟨?_, ?_⟩, ?_, ?_, ?_⟩
  · simp only [PollutionSystem.update, Bool.false_eq_true, if_false]
    exact le_max_left 0 _
  · simp only [PollutionSystem.update, Bool.false_eq_true, if_false]
    exact max_le (by norm_num) (min_le_left _ _)
  · intro a ha hexp
    have hconcat :
        (PollutionSystem.update false dt st).pools .algae ++
          (PollutionSystem.update false dt st).pools .seagrass ++
          (PollutionSystem.update false dt st).pools .kelp =
        (st.pools .algae ++ st.pools .seagrass ++ st.pools .kelp).map
          (PollutionSystem.decLifetime dt) := by
      rw [hpools]
      simp [List.map_append]
    rw [hconcat] at ha
    have hq : (PollutionSystem.update false dt st).removeQueue =
        (((st.pools .algae ++ st.pools .seagrass ++ st.pools .kelp).map
            (PollutionSystem.decLifetime dt)).foldl
          (fun s b => if b.lifetime ≤ 0 then EntityManager.queueRemove b s else s)
          { st with pools := fun k =>
              if k = PoolKey.algae ∨ k = PoolKey.seagrass ∨ k = PoolKey.kelp then
                (st.pools k).map (PollutionSystem.decLifetime dt)
              else st.pools k }).removeQueue := by
      simp only [PollutionSystem.update, Bool.false_eq_true, if_false]
    rw [hq]
    exact mem_queue_foldl_of_expired _ _ a ha hexp
  · rw [hpools]
    refine ⟨by simp, by simp, by simp⟩
  · intro k h1 h2 h3
    rw [hpools]
    simp [h1, h2, h3]

/-! Claim C3: the population-cap invariant over all states reachable
through gated spawning, queueing and flushing. -/

namespace EntityManager

/-- The pools field of add, in every useGrid and GRID_MAP case. -/
theorem add_pools (e : Entity) (pk : PoolKey) (ug : Bool) (st : EMState) :
    (add e pk ug st).pools =
      fun k => if k = pk then st.pools k ++ [e] else st.pools k := by
  cases ug <;> rcases hg : GRID_MAP pk with _ | gk <;> simp [add, hg]

/-- Effect of add on countById: the count grows by one when the added
entity matches and the pool is among the allArrays pools, else stays. -/
theorem countById_add (i : Nat) (e : Entity) (pk : PoolKey) (ug : Bool) (st : EMState) :
    countById i (add e pk ug st) =
      countById i st +
        (if pk = PoolKey.islands then 0 else 1) * (if matchesId i e then 1 else 0) := by
  cases pk <;>
    by_cases hid : matchesId i e <;>
      simp [countById, allArraysKeys, add_pools, List.countP_append,
        List.countP_cons, hid] <;>
      omega

/-- remove never increases any species count. -/
theorem countById_remove_le (i : Nat) (f : Entity) (st : EMState) :
    countById i (remove f st) ≤ countById i st := by
  rcases hf : removeOrderKeys.find? (fun k => decide (f ∈ st.pools k)) with _ | k0
  · rw [remove_of_not_mem f st (not_mem_pools_of_find_none f st hf)]
  · simp only [countById, remove_pools_of_find f st k0 hf]
    apply List.sum_le_sum
    intro k hk
    by_cases hkk : k = k0
    · subst hkk
      simp only [if_pos rfl]
      exact List.Sublist.countP_le _ (List.erase_sublist f (st.pools k))
    · simp [hkk]

theorem countById_foldl_remove_le (i : Nat) (q : List Entity) (st : EMState) :
    countById i (q.foldl (fun s f => remove f s) st) ≤ countById i st := by
  induction q generalizing st with
  | nil => exact le_refl _
  | cons f tl ih =>
    simp only [List.foldl_cons]
    exact le_trans (ih (remove f st)) (countById_remove_le i f st)

theorem countById_flush_le (i : Nat) (st : EMState) :
    countById i (flushRemovals st) ≤ countById i st := by
  have h : countById i (flushRemovals st) =
      countById i (st.removeQueue.foldl (fun s f => remove f s) st) := rfl
  rw [h]
  exact countById_foldl_remove_le i st.removeQueue st

theorem countById_queueRemove (i : Nat) (e : Entity) (st : EMState) :
    countById i (queueRemove e st) = countById i st := by
  simp [countById, queueRemove_pools]

end EntityManager

/-- The registry states reachable through the operations the spawn
authority performs (game/Spawners.js): the constructor state; a spawn
of an entity referencing a descriptor, gated by canSpawn immediately
before construction and never targeting the islands pool; an ungated
add of an entity with no descriptor (islands, eggs, elixirs); queuing
a removal; flushing removals. The caps function fixes the MAX_COUNT
that descriptors of a given id carry (descriptors are shared and
immutable). -/
inductive Reach (caps : Nat → Nat) : EMState → Prop where
  | init (cs : Rat) : Reach caps (emptyEMState cs)
  | spawnGated {st : EMState} (d : SpeciesDef) (e : Entity) (pk : PoolKey) (ug : Bool) :
      Reach caps st → d.MAX_COUNT = caps d.id → e.speciesDef = some d →
      pk ≠ PoolKey.islands → EntityManager.canSpawn d st = true →
      Reach caps (EntityManager.add e pk ug st)
  | addPlain {st : EMState} (e : Entity) (pk : PoolKey) (ug : Bool) :
      Reach caps st → e.speciesDef = none →
      Reach caps (EntityManager.add e pk ug st)
  | queueStep {st : EMState} (e : Entity) :
      Reach caps st → Reach caps (EntityManager.queueRemove e st)
  | removeStep {st : EMState} (e : Entity) :
      Reach caps st → Reach caps (EntityManager.remove e st)
  | flushStep {st : EMState} :
      Reach caps st → Reach caps (EntityManager.flushRemovals st)

/-- In every reachable state, every id count is within its cap. -/
theorem reach_countById_le {caps : Nat → Nat} {st : EMState}
    (h : Reach caps st) : ∀ i, EntityManager.countById i st ≤ caps i := by
  induction h with
  | init cs =>
    intro i
    simp [EntityManager.countById, emptyEMState, EntityManager.allArraysKeys]
  | @spawnGated st1 d e pk ug _ hcap hsd hpk hgate ih =>
    intro i
    rw [EntityManager.countById_add]
    by_cases hid : EntityManager.matchesId i e
    · have hde : d.id = i := by
        simp [EntityManager.matchesId, hsd] at hid
        exact hid
      have hlt : EntityManager.countById d.id st1 < d.MAX_COUNT := by
        simpa [EntityManager.canSpawn, EntityManager.countSpecies] using hgate
      rw [hde] at hlt
      rw [hcap, hde] at hlt
      simp only [if_neg hpk, hid, if_pos]
      omega
    · simp only [hid, if_neg]
      simp only [Bool.false_eq_true, if_false, mul_zero, Nat.add_zero]
      exact ih i
  | addPlain e pk ug _ hnone ih =>
    intro i
    rw [EntityManager.countById_add]
    have hm : EntityManager.matchesId i e = false := by
      simp [EntityManager.matchesId, hnone]
    simp only [hm, Bool.false_eq_true, if_false, mul_zero, Nat.add_zero]
    exact ih i
  | queueStep e _ ih =>
    intro i
    rw [EntityManager.countById_queueRemove]
    exact ih i
  | removeStep e _ ih =>
    intro i
    exact le_trans (EntityManager.countById_remove_le i e _) (ih i)
  | flushStep _ ih =>
    intro i
    exact le_trans (EntityManager.countById_flush_le i _) (ih i)

/-- C3: in every registry state reachable through the spawn operations
(each creation synchronously gated by canSpawn before construction),
the total live count of entities referencing a given species
descriptor never exceeds the cap carried by that descriptor. -/
theorem c3_cap_invariant {caps : Nat → Nat} {st : EMState} (d : SpeciesDef)
    (hreach : Reach caps st) (hcap : d.MAX_COUNT = caps d.id) :
    EntityManager.countSpecies d st ≤ d.MAX_COUNT := by
  rw [EntityManager.countSpecies, hcap]
  exact reach_countById_le hreach d.id

/-- Witness for c3_cap_invariant at the constructor state. -/
theorem c3_cap_invariant_witness :
    EntityManager.countSpecies ⟨0, 3, none⟩ (emptyEMState 150) ≤
      (⟨0, 3, none⟩ : SpeciesDef).MAX_COUNT :=
  c3_cap_invariant ⟨0, 3, none⟩ (@Reach.init (fun _ => 3) 150) rfl

/-! Claim C1: canSpawn compared with the live count of entities
referencing the descriptor. -/

/-- The count the specification describes: across all pools of the
registry, the entities whose descriptor references d (pools hold
exactly the live entities; an entity leaves its pool at the flush
point when it dies). -/
def liveCount (d : SpeciesDef) (st : EMState) : Nat :=
  (EntityManager.removeOrderKeys.map
    (fun k => (st.pools k).countP (fun e => decide (e.speciesDef = some d)))).sum

/-- C1: provided the islands pool carries no descriptor-bearing
entities (it only ever holds islands) and descriptors are shared (an
entity whose descriptor has the id of d references d itself), canSpawn
of d returns true exactly when the live count of entities referencing
d is strictly below MAX_COUNT of d; in particular it returns false
when that count equals the cap. -/
theorem c1_canSpawn_iff_below_cap (st : EMState) (d : SpeciesDef)
    (hIslands : ∀ e ∈ st.pools PoolKey.islands, e.speciesDef = none)
    (hShared : ∀ k, ∀ e ∈ st.pools k, ∀ sd, e.speciesDef = some sd → sd.id = d.id → sd = d) :
    (EntityManager.canSpawn d st = true ↔ liveCount d st < d.MAX_COUNT) ∧
    (liveCount d st = d.MAX_COUNT → EntityManager.canSpawn d st = false) := by
  have hpool : ∀ k, (st.pools k).countP (EntityManager.matchesId d.id) =
      (st.pools k).countP (fun e => decide (e.speciesDef = some d)) := by
    intro k
    apply List.countP_congr
    intro e he
    cases hsd : e.speciesDef with
    | none => simp [EntityManager.matchesId, hsd]
    | some sd =>
      simp only [EntityManager.matchesId, hsd]
      by_cases hid : sd = d
      · subst hid
        simp
      · have h1 : (sd.id == d.id) = false := by
          by_cases hii : sd.id = d.id
          · exact absurd (hShared k e he sd hsd hii) hid
          · simp [hii]
        simp [h1, hid]
  have hIslandsZero :
      (st.pools PoolKey.islands).countP (fun e => decide (e.speciesDef = some d)) = 0 := by
    rw [List.countP_eq_zero]
    intro e he
    simp [hIslands e he]
  have hcount : EntityManager.countSpecies d st = liveCount d st := by
    simp only [EntityManager.countSpecies, EntityManager.countById, liveCount,
      EntityManager.allArraysKeys, EntityManager.removeOrderKeys,
      List.map_cons, List.map_nil, List.sum_cons, List.sum_nil, hpool, hIslandsZero]
    omega
  constructor
  · rw [← hcount]
    simp [EntityManager.canSpawn]
  · intro heq
    rw [← hcount] at heq
    simp [EntityManager.canSpawn, heq]

/-- Witness for c1_canSpawn_iff_below_cap on the constructor state. -/
theorem c1_canSpawn_iff_below_cap_witness :
    (EntityManager.canSpawn ⟨0, 2, none⟩ (emptyEMState 150) = true ↔
      liveCount ⟨0, 2, none⟩ (emptyEMState 150) < (⟨0, 2, none⟩ : SpeciesDef).MAX_COUNT) ∧
    (liveCount ⟨0, 2, none⟩ (emptyEMState 150) = (⟨0, 2, none⟩ : SpeciesDef).MAX_COUNT →
      EntityManager.canSpawn ⟨0, 2, none⟩ (emptyEMState 150) = false) :=
  c1_canSpawn_iff_below_cap (emptyEMState 150) ⟨0, 2, none⟩
    (by intro e he; simp [emptyEMState] at he)
    (by intro k e he; simp [emptyEMState] at he)

/-! Claim C5: the grid-ring query is a superset of the exact radius
filter. -/

namespace SpatialGrid

theorem mem_intRange {lo hi a : Int} :
    a ∈ intRange lo hi ↔ lo ≤ a ∧ a ≤ hi := by
  unfold intRange
  rw [List.mem_map]
  constructor
  · rintro ⟨i, hir, rfl⟩
    rw [List.mem_range] at hir
    omega
  · rintro ⟨h1, h2⟩
    refine ⟨(a - lo).toNat, ?_, ?_⟩
    · rw [List.mem_range]
      omega
    · omega

/-- Floor of a sum is at most floor plus ceiling. -/
theorem floor_add_le_floor_add_ceil (p q : Rat) : ⌊p + q⌋ ≤ ⌊p⌋ + ⌈q⌉ := by
  have h1 := Int.lt_floor_add_one p
  have h2 := Int.le_ceil q
  have h3 : p + q < ((⌊p⌋ + ⌈q⌉ + 1 : Int) : Rat) := by
    push_cast
    linarith
  have h4 := Int.floor_lt.mpr h3
  omega

/-- If a coordinate moves by at most r, its floor-divided cell index
moves by at most ceil(r / cs). -/
theorem cell_index_bound {x ex r cs : Rat} (hcs : 0 < cs) (h : |ex - x| ≤ r) :
    ⌊x / cs⌋ - ⌈r / cs⌉ ≤ ⌊ex / cs⌋ ∧ ⌊ex / cs⌋ ≤ ⌊x / cs⌋ + ⌈r / cs⌉ := by
  obtain ⟨hlo, hhi⟩ := abs_le.mp h
  constructor
  · rw [Int.le_floor]
    push_cast
    have hf := Int.floor_le (x / cs)
    have hc := Int.le_ceil (r / cs)
    have hd : (x - r) / cs ≤ ex / cs := by
      gcongr
      linarith
    rw [sub_div] at hd
    linarith
  · have hd : ex / cs ≤ (x + r) / cs := by
      gcongr
      linarith
    rw [add_div] at hd
    calc ⌊ex / cs⌋ ≤ ⌊x / cs + r / cs⌋ := Int.floor_le_floor hd
      _ ≤ ⌊x / cs⌋ + ⌈r / cs⌉ := floor_add_le_floor_add_ceil _ _

end SpatialGrid

/-- C5: getNearby never misses: every entity stored in the grid in the
bucket consistent with its position, whose Euclidean distance to the
query center is at most the radius, appears in the query result. -/
theorem c5_getNearby_superset (cs x y r : Rat) (g : SpatialGrid.Grid) (e : Entity)
    (hcs : 0 < cs) (hr : 0 ≤ r)
    (hb : e ∈ g (SpatialGrid.cellKey cs e.x e.y))
    (hdist : (e.x - x) ^ 2 + (e.y - y) ^ 2 ≤ r ^ 2) :
    e ∈ SpatialGrid.getNearby cs g x y r := by
  have hax : |e.x - x| ≤ r := by
    rw [abs_le]
    constructor <;> nlinarith [sq_nonneg (e.y - y), sq_nonneg (e.x - x + r), sq_nonneg (e.x - x - r)]
  have hay : |e.y - y| ≤ r := by
    rw [abs_le]
    constructor <;> nlinarith [sq_nonneg (e.x - x), sq_nonneg (e.y - y + r), sq_nonneg (e.y - y - r)]
  obtain ⟨hx1, hx2⟩ := SpatialGrid.cell_index_bound hcs hax
  obtain ⟨hy1, hy2⟩ := SpatialGrid.cell_index_bound hcs hay
  simp only [SpatialGrid.getNearby, List.mem_flatMap, SpatialGrid.mem_intRange]
  refine ⟨⌊e.x / cs⌋ - ⌊x / cs⌋, ⟨by omega, by omega⟩,
    ⌊e.y / cs⌋ - ⌊y / cs⌋, ⟨by omega, by omega⟩, ?_⟩
  have hkx : ⌊x / cs⌋ + (⌊e.x / cs⌋ - ⌊x / cs⌋) = ⌊e.x / cs⌋ := by omega
  have hky : ⌊y / cs⌋ + (⌊e.y / cs⌋ - ⌊y / cs⌋) = ⌊e.y / cs⌋ := by omega
  rw [hkx, hky]
  exact hb

/-- Witness for c5_getNearby_superset: an entity at the origin stored
in its bucket is returned by a radius-0 query at the origin. -/
theorem c5_getNearby_superset_witness :
    (⟨0, 0, 0, none, 0⟩ : Entity) ∈
      SpatialGrid.getNearby 150
        (fun k => if k = SpatialGrid.cellKey 150 0 0 then [⟨0, 0, 0, none, 0⟩] else [])
        0 0 0 :=
  c5_getNearby_superset 150 0 0 0 _ ⟨0, 0, 0, none, 0⟩ (by norm_num) (by norm_num)
    (by simp) (by norm_num)

/-! Claim C2: after one flushRemovals, no pool contains a queued
entity, the spatial index holds no reference to a removed entity, and
the queue is empty. The hypotheses are the documented registry
invariants at the flush point: an entity occurs at most once across
the pools, its grid entries sit in the bucket of its position, belong
to the grid fed by its pool, and are not duplicated. -/

/-- The entity has disappeared from every pool and every grid bucket. -/
def Gone (e : Entity) (st : EMState) : Prop :=
  (∀ k, e ∉ st.pools k) ∧ ∀ gk k, e ∉ st.grids gk k

/-- The documented invariants a queued entity satisfies when the flush
runs: it occurs at most once in any pool and in at most one pool; any
grid entry for it sits in the bucket of its position and belongs to a
grid fed by a pool containing it; and its bucket holds it at most
once. -/
def RemovalReady (e : Entity) (st : EMState) : Prop :=
  (∀ k, (st.pools k).count e ≤ 1) ∧
  (∀ k1 k2, e ∈ st.pools k1 → e ∈ st.pools k2 → k1 = k2) ∧
  (∀ gk k, e ∈ st.grids gk k →
      k = SpatialGrid.cellKey st.cellSize e.x e.y ∧
      ∃ p, GRID_MAP p = some gk ∧ e ∈ st.pools p) ∧
  (∀ gk, ((st.grids gk) (SpatialGrid.cellKey st.cellSize e.x e.y)).count e ≤ 1)

namespace EntityManager

theorem remove_self_gone (e : Entity) (st : EMState)
    (hready : RemovalReady e st) : Gone e (remove e st) := by
  obtain ⟨hcnt, huniq, hgridc, hgcnt⟩ := hready
  rcases hf : removeOrderKeys.find? (fun k => decide (e ∈ st.pools k)) with _ | k0
  · have habs := not_mem_pools_of_find_none e st hf
    rw [remove_of_not_mem e st habs]
    refine ⟨habs, ?_⟩
    intro gk k hm
    obtain ⟨_, p, _, hp⟩ := hgridc gk k hm
    exact habs p hp
  · have hk0 : e ∈ st.pools k0 := mem_pools_of_find e st k0 hf
    have hpools := remove_pools_of_find e st k0 hf
    have hgrids := remove_grids_of_find e st k0 hf
    constructor
    · intro k
      rw [hpools]
      by_cases hk : k = k0
      · subst hk
        simp only [if_pos rfl]
        intro hmem
        have h1 : (st.pools k).count e = 1 := by
          have h0 : (st.pools k).count e ≠ 0 := by
            rw [Ne, List.count_eq_zero]
            exact fun h => h hk0
          have := hcnt k
          omega
        have hcc := List.count_erase_self e (st.pools k)
        rw [h1] at hcc
        exact (List.count_eq_zero.mp hcc) hmem
      · simp only [if_neg hk]
        intro hmem
        exact hk (huniq k k0 hmem hk0)
    · intro gk k hm
      rw [hgrids] at hm
      rcases hgm : GRID_MAP k0 with _ | g0
      · rw [hgm] at hm
        dsimp only at hm
        obtain ⟨_, p, hpmap, hpmem⟩ := hgridc gk k hm
        have hp0 : p = k0 := huniq p k0 hpmem hk0
        rw [hp0, hgm] at hpmap
        cases hpmap
      · rw [hgm] at hm
        dsimp only at hm
        by_cases hgg : gk = g0
        · subst hgg
          rw [if_pos rfl] at hm
          simp only [SpatialGrid.remove] at hm
          by_cases hkc : k = SpatialGrid.cellKey st.cellSize e.x e.y
          · rw [if_pos hkc] at hm
            subst hkc
            have hc := hgcnt gk
            have hcc := List.count_erase_self e
              (st.grids gk (SpatialGrid.cellKey st.cellSize e.x e.y))
            have h0 : ((st.grids gk (SpatialGrid.cellKey st.cellSize e.x e.y)).erase e).count e
                = 0 := by omega
            exact (List.count_eq_zero.mp h0) hm
          · rw [if_neg hkc] at hm
            exact hkc (hgridc gk k hm).1
        · rw [if_neg hgg] at hm
          obtain ⟨_, p, hpmap, hpmem⟩ := hgridc gk k hm
          have hp0 : p = k0 := huniq p k0 hpmem hk0
          rw [hp0, hgm] at hpmap
          exact hgg (Option.some.inj hpmap).symm

theorem mem_pools_remove_iff (e f : Entity) (st : EMState) (hne : e ≠ f) (k : PoolKey) :
    e ∈ (remove f st).pools k ↔ e ∈ st.pools k := by
  rcases hf : removeOrderKeys.find? (fun p => decide (f ∈ st.pools p)) with _ | k0
  · rw [remove_of_not_mem f st (not_mem_pools_of_find_none f st hf)]
  · rw [remove_pools_of_find f st k0 hf]
    by_cases hk : k = k0
    · subst hk
      simp only [if_pos rfl]
      exact List.mem_erase_of_ne hne
    · simp only [if_neg hk]

theorem count_pools_remove (e f : Entity) (st : EMState) (hne : e ≠ f) (k : PoolKey) :
    ((remove f st).pools k).count e = (st.pools k).count e := by
  rcases hf : removeOrderKeys.find? (fun p => decide (f ∈ st.pools p)) with _ | k0
  · rw [remove_of_not_mem f st (not_mem_pools_of_find_none f st hf)]
  · rw [remove_pools_of_find f st k0 hf]
    by_cases hk : k = k0
    · subst hk
      simp only [if_pos rfl]
      exact List.count_erase_of_ne hne _
    · simp only [if_neg hk]

theorem mem_grids_remove_iff (e f : Entity) (st : EMState) (hne : e ≠ f)
    (gk : GridKey) (k : Int × Int) :
    e ∈ (remove f st).grids gk k ↔ e ∈ st.grids gk k := by
  rcases hf : removeOrderKeys.find? (fun p => decide (f ∈ st.pools p)) with _ | k0
  · rw [remove_of_not_mem f st (not_mem_pools_of_find_none f st hf)]
  · rw [remove_grids_of_find f st k0 hf]
    rcases hgm : GRID_MAP k0 with _ | g0
    · rfl
    · dsimp only
      by_cases hgg : gk = g0
      · subst hgg
        rw [if_pos rfl]
        simp only [SpatialGrid.remove]
        by_cases hkc : k = SpatialGrid.cellKey st.cellSize f.x f.y
        · rw [if_pos hkc]
          exact List.mem_erase_of_ne hne
        · rw [if_neg hkc]
      · rw [if_neg hgg]

theorem count_grids_remove (e f : Entity) (st : EMState) (hne : e ≠ f)
    (gk : GridKey) (k : Int × Int) :
    ((remove f st).grids gk k).count e = (st.grids gk k).count e := by
  rcases hf : removeOrderKeys.find? (fun p => decide (f ∈ st.pools p)) with _ | k0
  · rw [remove_of_not_mem f st (not_mem_pools_of_find_none f st hf)]
  · rw [remove_grids_of_find f st k0 hf]
    rcases hgm : GRID_MAP k0 with _ | g0
    · rfl
    · dsimp only
      by_cases hgg : gk = g0
      · subst hgg
        rw [if_pos rfl]
        simp only [SpatialGrid.remove]
        by_cases hkc : k = SpatialGrid.cellKey st.cellSize f.x f.y
        · rw [if_pos hkc]
          exact List.count_erase_of_ne hne _
        · rw [if_neg hkc]
      · rw [if_neg hgg]

theorem mem_pools_of_remove (e f : Entity) (st : EMState) (k : PoolKey)
    (hm : e ∈ (remove f st).pools k) : e ∈ st.pools k := by
  rcases hf : removeOrderKeys.find? (fun p => decide (f ∈ st.pools p)) with _ | k0
  · rwa [remove_of_not_mem f st (not_mem_pools_of_find_none f st hf)] at hm
  · rw [remove_pools_of_find f st k0 hf] at hm
    by_cases hk : k = k0
    · subst hk
      simp only [if_pos rfl] at hm
      exact List.mem_of_mem_erase hm
    · simpa only [if_neg hk] using hm

theorem mem_grids_of_remove (e f : Entity) (st : EMState) (gk : GridKey) (k : Int × Int)
    (hm : e ∈ (remove f st).grids gk k) : e ∈ st.grids gk k := by
  rcases hf : removeOrderKeys.find? (fun p => decide (f ∈ st.pools p)) with _ | k0
  · rwa [remove_of_not_mem f st (not_mem_pools_of_find_none f st hf)] at hm
  · rw [remove_grids_of_find f st k0 hf] at hm
    rcases hgm : GRID_MAP k0 with _ | g0
    · rw [hgm] at hm
      exact hm
    · rw [hgm] at hm
      dsimp only at hm
      by_cases hgg : gk = g0
      · subst hgg
        rw [if_pos rfl] at hm
        simp only [SpatialGrid.remove] at hm
        by_cases hkc : k = SpatialGrid.cellKey st.cellSize f.x f.y
        · rw [if_pos hkc] at hm
          exact List.mem_of_mem_erase hm
        · rwa [if_neg hkc] at hm
      · rwa [if_neg hgg] at hm

theorem removalReady_of_gone (e : Entity) (st : EMState) (hg : Gone e st) :
    RemovalReady e st := by
  refine ⟨fun k => ?_, fun k1 k2 h1 _ => absurd h1 (hg.1 k1),
    fun gk k hm => absurd hm (hg.2 gk k), fun gk => ?_⟩
  · rw [List.count_eq_zero.mpr (hg.1 k)]
    omega
  · rw [List.count_eq_zero.mpr (hg.2 gk _)]
    omega

theorem removalReady_remove (e f : Entity) (st : EMState)
    (hready : RemovalReady e st) : RemovalReady e (remove f st) := by
  by_cases hef : e = f
  · subst hef
    exact removalReady_of_gone e _ (remove_self_gone e st hready)
  · obtain ⟨hcnt, huniq, hgridc, hgcnt⟩ := hready
    refine ⟨?_, ?_, ?_, ?_⟩
    · intro k
      rw [count_pools_remove e f st hef k]
      exact hcnt k
    · intro k1 k2 h1 h2
      exact huniq k1 k2 ((mem_pools_remove_iff e f st hef k1).mp h1)
        ((mem_pools_remove_iff e f st hef k2).mp h2)
    · intro gk k hm
      have hm0 := (mem_grids_remove_iff e f st hef gk k).mp hm
      obtain ⟨hk, p, hpmap, hpmem⟩ := hgridc gk k hm0
      rw [remove_cellSize]
      exact ⟨hk, p, hpmap, (mem_pools_remove_iff e f st hef p).mpr hpmem⟩
    · intro gk
      rw [remove_cellSize, count_grids_remove e f st hef gk _]
      exact hgcnt gk

theorem gone_remove (e f : Entity) (st : EMState) (hg : Gone e st) :
    Gone e (remove f st) := by
  refine ⟨fun k hm => hg.1 k (mem_pools_of_remove e f st k hm),
    fun gk k hm => hg.2 gk k (mem_grids_of_remove e f st gk k hm)⟩

theorem gone_foldl_remove (e : Entity) (q : List Entity) (st : EMState) (hg : Gone e st) :
    Gone e (q.foldl (fun s f => remove f s) st) := by
  induction q generalizing st with
  | nil => exact hg
  | cons f tl ih => exact ih (remove f st) (gone_remove e f st hg)

theorem flush_fold_gone (q : List Entity) (st : EMState)
    (hq : ∀ e ∈ q, RemovalReady e st) :
    ∀ e ∈ q, Gone e (q.foldl (fun s f => remove f s) st) := by
  induction q generalizing st with
  | nil => intro e he; cases he
  | cons f tl ih =>
    intro e he
    simp only [List.foldl_cons]
    rcases List.mem_cons.mp he with rfl | htl
    · exact gone_foldl_remove e tl _ (remove_self_gone e st (hq e (List.mem_cons_self e tl)))
    · exact ih (remove f st)
        (fun x hx => removalReady_remove x f st (hq x (List.mem_cons_of_mem f hx))) e htl

end EntityManager

/-- C2: whatever sequence of queueRemove calls built the queue
(duplicates and already-removed entities included), one flushRemovals
call leaves every queued entity absent from every pool, leaves every
spatial grid free of references to it, and empties the queue, provided
each queued entity satisfies the documented registry invariants at the
flush point. -/
theorem c2_flush_removes_queued (st : EMState)
    (hready : ∀ e ∈ st.removeQueue, RemovalReady e st) :
    (∀ e ∈ st.removeQueue,
        (∀ k, e ∉ (EntityManager.flushRemovals st).pools k) ∧
        (∀ gk k, e ∉ (EntityManager.flushRemovals st).grids gk k)) ∧
    (EntityManager.flushRemovals st).removeQueue = [] := by
  constructor
  · intro e he
    have hg := EntityManager.flush_fold_gone st.removeQueue st hready e he
    exact ⟨hg.1, hg.2⟩
  · rfl

/-- A one-entity registry used to witness c2_flush_removes_queued: one
fish in the fish pool, indexed in the fish grid in the bucket of its
position, queued for removal. -/
def c2WitnessState : EMState where
  cellSize := 150
  pools := fun k => if k = PoolKey.fish then [⟨7, 0, 0, none, 0⟩] else []
  grids := fun gk => fun k =>
    if gk = GridKey.fish ∧ k = SpatialGrid.cellKey 150 0 0 then [⟨7, 0, 0, none, 0⟩] else []
  removeQueue := [⟨7, 0, 0, none, 0⟩]
  waterPollution := 0
  biodiversity := 100

/-- Witness for c2_flush_removes_queued on c2WitnessState. -/
theorem c2_flush_removes_queued_witness :
    (∀ e ∈ c2WitnessState.removeQueue,
        (∀ k, e ∉ (EntityManager.flushRemovals c2WitnessState).pools k) ∧
        (∀ gk k, e ∉ (EntityManager.flushRemovals c2WitnessState).grids gk k)) ∧
    (EntityManager.flushRemovals c2WitnessState).removeQueue = [] := by
  apply c2_flush_removes_queued c2WitnessState
  intro e he
  have hee : e = ⟨7, 0, 0, none, 0⟩ := by
    simpa [c2WitnessState] using he
  subst hee
  have hpool : ∀ k, (⟨7, 0, 0, none, 0⟩ : Entity) ∈ c2WitnessState.pools k →
      k = PoolKey.fish := by
    intro k hk
    by_contra hkne
    simp [c2WitnessState, hkne] at hk
  refine ⟨?_, ?_, ?_, ?_⟩
  · intro k
    by_cases hk : k = PoolKey.fish <;> simp [c2WitnessState, hk]
  · intro k1 k2 h1 h2
    rw [hpool k1 h1, hpool k2 h2]
  · intro gk k hm
    by_cases hc : gk = GridKey.fish ∧ k = SpatialGrid.cellKey 150 0 0
    · obtain ⟨hgk, hk⟩ := hc
      subst hgk
      subst hk
      exact ⟨rfl, PoolKey.fish, rfl, by simp [c2WitnessState]⟩
    · simp [c2WitnessState, hc] at hm
  · intro gk
    by_cases hgk : gk = GridKey.fish
    · subst hgk
      simp [c2WitnessState]
    · simp [c2WitnessState, hgk]
